import Mathlib

/-!
# Verification of the OpenSpell/JamSpell n-gram language model core

Shallow embedding of `src/openspell/lang_model.cpp` (namespace `NOpenSpell`):
the vocabulary, the n-gram accumulator, the perfect-hash counter store, the
smoothed probability estimators, the sentence scorer, and the model
(de)serializer, together with theorems settling the frozen claims about them.

Doubles are modelled as rationals (`ℚ`): every claim is about the arithmetic
structure of the computations, not about rounding.  The external `log`
function from libm enters the scorer only as an outer wrapper around each
probability term, so it is taken as an arbitrary parameter `lg : ℚ → ℚ`; a
statement proved for every `lg` holds in particular for the real logarithm.
The external 32-bit content hash (`CityHash32`, in `contrib/`, not part of
this repository's sources) is likewise a parameter `h32 : List Nat → Nat`.
-/

set_option linter.unusedVariables false
set_option linter.unnecessarySeqFocus false

namespace NOpenSpell

/-- Word ids are dense unsigned integers (`TWordId` = `uint32_t`). -/
abbrev TWordId := Nat

/-- Stored occurrence counts (`TCount`). -/
abbrev TCount := Nat

/-- A word: `TWord` is a `(Ptr, Len)` span over wide characters; the
embedding represents a span by its character content.  A span with a null
pointer or zero length is represented by the empty list. -/
abbrev TWord := List Char

/-- Modelled from the spec: `UnknownWordId` is declared in
`lang_model.hpp`, which is not under `src/`; the spec describes it as a
reserved sentinel id that is never assigned to a vocabulary word (dense ids
are allocated sequentially from zero).  We use the maximal 32-bit value. -/
def UnknownWordId : TWordId := 4294967295

/-- Modelled from the spec: the default smoothing constant `DEFAULT_K` is
declared in `lang_model.hpp`, not under `src/`; its exact value is
irrelevant to every claim, only that `Clear` resets `K` to it. -/
def DEFAULT_K : ℚ := 1 / 20

/-- Modelled from the spec: the 8-byte magic constant written before and
after the serialized payload (`MAGIC_BYTE` lives in a header not under
`src/`); only its fixed identity matters. -/
def MAGIC_BYTE : Nat := 0x4f50454e5350454c

/-- Modelled from the spec: the 2-byte format version (`VERSION`, declared
in a header not under `src/`). -/
def VERSION : Nat := 1

/-- The value of `std::numeric_limits<double>::min()`, the sentinel returned by `Score`
for an empty word sequence: the smallest positive normal double, `2^-1022`. -/
def DOUBLE_MIN : ℚ := 1 / 2 ^ 1022

/-- An n-gram key: `TGram1Key` is a single word id, `TGram2Key` an ordered
pair, `TGram3Key` an ordered triple (`lang_model.cpp` lines 84, 88, 323,
331, 339). -/
inductive TGramKey where
  | g1 (a : TWordId)
  | g2 (a b : TWordId)
  | g3 (a b c : TWordId)
deriving DecidableEq

/-- Little-endian byte serialization of one 32-bit word id. -/
def dumpWordId (w : TWordId) : List Nat :=
  [w % 256, w / 256 % 256, w / 65536 % 256, w / 16777216 % 256]

/-- Modelled from the spec: `DumpKey` serializes a gram key with the
`NSaveLoad` primitives (declared in headers not under `src/`); the spec
requires a fixed, order-dependent encoding that is unambiguous across the
three orders.  Each id contributes four bytes, so the three orders have
byte lengths 4, 8 and 12 and can never collide in content. -/
def DumpKey : TGramKey → List Nat
  | .g1 a => dumpWordId a
  | .g2 a b => dumpWordId a ++ dumpWordId b
  | .g3 a b c => dumpWordId a ++ dumpWordId b ++ dumpWordId c

/-- Modelled from the spec: the minimal-perfect-hash primitive
(`TPerfectHash`, built in `perfect_hash.cpp`, not under `src/`) is an
external collaborator; its query surface is a total map from serialized
keys to bucket indices plus the bucket count. -/
structure TPerfectHash where
  hashF : List Nat → Nat
  bucketsNumber : Nat

/-- Modelled from the spec: the tokenizer is an external collaborator; the
model only owns its alphabet state, which `Clear` resets. -/
structure TTokenizer where
  alphabet : List Char

/-- Embedding of `TTokenizer::Clear`: resets the alphabet. -/
def TTokenizer.Clear (t : TTokenizer) : TTokenizer := { alphabet := [] }

/-- The language model state (`TLangModel`).  Field-for-field mirror of the
state read and written by `lang_model.cpp`: the forward and reverse
vocabulary, the id allocator, the running unigram total, the three raw
n-gram maps (association lists keyed by first match, as the C++
`unordered_map` is keyed by its unique key), the tokenizer, the perfect
hash and the packed `(fingerprint, count)` bucket array. -/
structure TLangModel where
  K : ℚ
  WordToId : List (TWord × TWordId)
  IdToWord : List (Option TWord)
  LastWordID : TWordId
  TotalWords : Nat
  Grams1 : List (TWordId × TCount)
  Grams2 : List ((TWordId × TWordId) × TCount)
  Grams3 : List ((TWordId × TWordId × TWordId) × TCount)
  Tokenizer : TTokenizer
  PerfectHash : TPerfectHash
  Buckets : List (Nat × TCount)

/-- Number of occurrences of an element in a list. -/
def occurrences {α : Type} [DecidableEq α] : List α → α → Nat
  | [], _ => 0
  | x :: xs, a => (if x = a then 1 else 0) + occurrences xs a

/-- First-match lookup in an association map, returning the stored count or
zero (the `unordered_map::find` / value-read pattern). -/
def countOf {κ : Type} [DecidableEq κ] : List (κ × Nat) → κ → Nat
  | [], _ => 0
  | p :: rest, k => if p.1 = k then p.2 else countOf rest k

/-- The operation `map[key] += 1` on an association map: increment the first entry with
this key, or append a fresh entry with count 1. -/
def bumpCount {κ : Type} [DecidableEq κ] : List (κ × Nat) → κ → List (κ × Nat)
  | [], k => [(k, 1)]
  | p :: rest, k => if p.1 = k then (p.1, p.2 + 1) :: rest else p :: bumpCount rest k

/-- Embedding of `GetGramHashCount` (`lang_model.cpp` lines 304-317): serialize the key,
hash it to a bucket, and return the stored count exactly when the stored
fingerprint matches the 32-bit content hash of the serialized key,
otherwise zero.  The `assert(bucket < ph.BucketsNumber())` in-range
invariant is carried as a hypothesis by the theorems; the embedding reads
out of range as the value-initialized pair `(0, 0)`. -/
def GetGramHashCount (h32 : List Nat → Nat) (key : TGramKey) (ph : TPerfectHash)
    (buckets : List (Nat × TCount)) : TCount :=
  let s := DumpKey key
  let bucket := ph.hashF s
  let data := buckets.getD bucket (0, 0)
  if data.1 = h32 s then data.2 else 0

/-- Embedding of `TLangModel::GetGram1HashCount` (lines 319-325). -/
def TLangModel.GetGram1HashCount (m : TLangModel) (h32 : List Nat → Nat)
    (word : TWordId) : TCount :=
  if word = UnknownWordId then 0
  else GetGramHashCount h32 (TGramKey.g1 word) m.PerfectHash m.Buckets

/-- Embedding of `TLangModel::GetGram2HashCount` (lines 327-333). -/
def TLangModel.GetGram2HashCount (m : TLangModel) (h32 : List Nat → Nat)
    (word1 word2 : TWordId) : TCount :=
  if word1 = UnknownWordId ∨ word2 = UnknownWordId then 0
  else GetGramHashCount h32 (TGramKey.g2 word1 word2) m.PerfectHash m.Buckets

/-- Embedding of `TLangModel::GetGram3HashCount` (lines 335-341). -/
def TLangModel.GetGram3HashCount (m : TLangModel) (h32 : List Nat → Nat)
    (word1 word2 word3 : TWordId) : TCount :=
  if word1 = UnknownWordId ∨ word2 = UnknownWordId ∨ word3 = UnknownWordId then 0
  else GetGramHashCount h32 (TGramKey.g3 word1 word2 word3) m.PerfectHash m.Buckets

/-- Embedding of `TLangModel::GetGram1Prob` (lines 275-280): additive smoothing with the
in-memory unigram map's size as the vocabulary-size denominator term. -/
def TLangModel.GetGram1Prob (m : TLangModel) (h32 : List Nat → Nat)
    (word : TWordId) : ℚ :=
  let countsGram1 : ℚ := (m.GetGram1HashCount h32 word : ℚ) + m.K
  let vocabSize : ℚ := (m.Grams1.length : ℚ)
  countsGram1 / ((m.TotalWords : ℚ) + vocabSize)

/-- Embedding of `TLangModel::GetGram2Prob` (lines 282-291), including the
hash-collision guard that zeroes a bigram count exceeding its unigram
context count. -/
def TLangModel.GetGram2Prob (m : TLangModel) (h32 : List Nat → Nat)
    (word1 word2 : TWordId) : ℚ :=
  let countsGram1 : ℚ := (m.GetGram1HashCount h32 word1 : ℚ)
  let countsGram2 : ℚ := (m.GetGram2HashCount h32 word1 word2 : ℚ)
  let countsGram2 : ℚ := if countsGram2 > countsGram1 then 0 else countsGram2
  let countsGram1 : ℚ := countsGram1 + (m.TotalWords : ℚ)
  let countsGram2 : ℚ := countsGram2 + m.K
  countsGram2 / countsGram1

/-- Embedding of `TLangModel::GetGram3Prob` (lines 293-302). -/
def TLangModel.GetGram3Prob (m : TLangModel) (h32 : List Nat → Nat)
    (word1 word2 word3 : TWordId) : ℚ :=
  let countsGram2 : ℚ := (m.GetGram2HashCount h32 word1 word2 : ℚ)
  let countsGram3 : ℚ := (m.GetGram3HashCount h32 word1 word2 word3 : ℚ)
  let countsGram3 : ℚ := if countsGram3 > countsGram2 then 0 else countsGram3
  let countsGram2 : ℚ := countsGram2 + (m.TotalWords : ℚ)
  let countsGram3 : ℚ := countsGram3 + m.K
  countsGram3 / countsGram2

/-- Embedding of `TLangModel::GetWordIdNoCreate` (lines 239-246): the read-only lookup
used on the scoring path; unknown words map to the sentinel. -/
def TLangModel.GetWordIdNoCreate (m : TLangModel) (word : TWord) : TWordId :=
  match m.WordToId.find? (fun p => decide (p.1 = word)) with
  | some p => p.2
  | none => UnknownWordId

/-- Embedding of `TLangModel::GetWordId` (lines 224-237): the interning lookup used on
the training path.  The two fatal assertions (`word.Ptr && word.Len`,
`word.Len < 10000`) are modelled as the `none` result; otherwise the
existing id is returned, or the next sequential id is allocated and the
word is appended to both vocabulary indices. -/
def TLangModel.GetWordId (m : TLangModel) (word : TWord) :
    Option (TWordId × TLangModel) :=
  if word = [] ∨ 10000 ≤ word.length then none
  else
    match m.WordToId.find? (fun p => decide (p.1 = word)) with
    | some p => some (p.2, m)
    | none =>
        some (m.LastWordID,
          { m with
            WordToId := m.WordToId ++ [(word, m.LastWordID)],
            LastWordID := m.LastWordID + 1,
            IdToWord := m.IdToWord ++ [some word] })

/-- The word-id sequence with the two trailing `UnknownWordId` sentinels
appended by `Score` (lines 137-138). -/
def sentinelled (ids : List TWordId) : List TWordId :=
  ids ++ [UnknownWordId, UnknownWordId]

/-- One iteration of the scoring loop (lines 142-144): the three smoothed
log-probability terms contributed at position `i`. -/
def gramTerm (m : TLangModel) (lg : ℚ → ℚ) (h32 : List Nat → Nat)
    (s : List TWordId) (i : Nat) : ℚ :=
  lg (m.GetGram1Prob h32 (s.getD i UnknownWordId))
    + lg (m.GetGram2Prob h32 (s.getD i UnknownWordId) (s.getD (i + 1) UnknownWordId))
    + lg (m.GetGram3Prob h32 (s.getD i UnknownWordId) (s.getD (i + 1) UnknownWordId)
        (s.getD (i + 2) UnknownWordId))

/-- Embedding of `TLangModel::Score(const TWords&)` (lines 128-147): convert every word
through the non-allocating lookup, return the sentinel on an empty
sequence, otherwise append two `UnknownWordId` sentinels and accumulate the
three log-probability terms for every `i < sentence.size() - 2`. -/
def TLangModel.Score (m : TLangModel) (lg : ℚ → ℚ) (h32 : List Nat → Nat)
    (words : List TWord) : ℚ :=
  let sentence := words.map m.GetWordIdNoCreate
  if sentence = [] then DOUBLE_MIN
  else
    let s := sentence ++ [UnknownWordId, UnknownWordId]
    (List.range (s.length - 2)).foldl
      (fun result i =>
        result + lg (m.GetGram1Prob h32 (s.getD i UnknownWordId))
          + lg (m.GetGram2Prob h32 (s.getD i UnknownWordId) (s.getD (i + 1) UnknownWordId))
          + lg (m.GetGram3Prob h32 (s.getD i UnknownWordId) (s.getD (i + 1) UnknownWordId)
              (s.getD (i + 2) UnknownWordId)))
      0

/-- The ordered-pair key built at index `j` of the bigram loop
(`TGram2Key key(words[j], words[j+1])`, line 84). -/
def gram2KeyAt (ws : List TWordId) (j : Nat) : TWordId × TWordId :=
  (ws.getD j UnknownWordId, ws.getD (j + 1) UnknownWordId)

/-- The ordered-triple key built at index `j` of the trigram loop
(`TGram3Key key(words[j], words[j+1], words[j+2])`, line 88). -/
def gram3KeyAt (ws : List TWordId) (j : Nat) : TWordId × TWordId × TWordId :=
  (ws.getD j UnknownWordId, ws.getD (j + 1) UnknownWordId, ws.getD (j + 2) UnknownWordId)

/-- All adjacent ordered pairs of one sentence: the keys produced by the
loop `for j in [0, words.size() - 1)`. -/
def adjacentPairs (ws : List TWordId) : List (TWordId × TWordId) :=
  (List.range (ws.length - 1)).map (gram2KeyAt ws)

/-- All adjacent ordered triples of one sentence: the keys produced by the
loop `for j in [0, words.size() - 2)`. -/
def adjacentTriples (ws : List TWordId) : List (TWordId × TWordId × TWordId) :=
  (List.range (ws.length - 2)).map (gram3KeyAt ws)

/-- One iteration of the unigram loop (lines 78-81): `Grams1[w] += 1;
TotalWords += 1`. -/
def gram1Step (acc : TLangModel) (w : TWordId) : TLangModel :=
  { acc with Grams1 := bumpCount acc.Grams1 w, TotalWords := acc.TotalWords + 1 }

/-- One iteration of the bigram loop (lines 83-86): `Grams2[key] += 1`. -/
def gram2Step (ws : List TWordId) (acc : TLangModel) (j : Nat) : TLangModel :=
  { acc with Grams2 := bumpCount acc.Grams2 (gram2KeyAt ws j) }

/-- One iteration of the trigram loop (lines 87-90): `Grams3[key] += 1`. -/
def gram3Step (ws : List TWordId) (acc : TLangModel) (j : Nat) : TLangModel :=
  { acc with Grams3 := bumpCount acc.Grams3 (gram3KeyAt ws j) }

/-- The per-sentence body of the training loop (`lang_model.cpp` lines
75-90): bump the unigram count and `TotalWords` for every word, then the
bigram count for every adjacent pair, then the trigram count for every
adjacent triple — all within this single sentence. -/
def TLangModel.accumulateSentence (m : TLangModel) (words : List TWordId) :
    TLangModel :=
  let m1 := words.foldl gram1Step m
  let m2 := (List.range (words.length - 1)).foldl (gram2Step words) m1
  (List.range (words.length - 2)).foldl (gram3Step words) m2

/-- The n-gram counting pass of `TLangModel::Train` (lines 74-96): fold the
per-sentence accumulator over the id-converted sentences. -/
def TLangModel.trainCounts (m : TLangModel) (sents : List (List TWordId)) :
    TLangModel :=
  sents.foldl TLangModel.accumulateSentence m

/-- Embedding of `TLangModel::Clear` (lines 195-204).  Note which fields the source does
and does not reset: `K`, the forward vocabulary, the id allocator,
`TotalWords`, the three raw gram maps and the tokenizer are cleared, while
`IdToWord`, `PerfectHash` and `Buckets` are left untouched. -/
def TLangModel.Clear (m : TLangModel) : TLangModel :=
  { m with
    K := DEFAULT_K,
    WordToId := [],
    LastWordID := 0,
    TotalWords := 0,
    Grams1 := [],
    Grams2 := [],
    Grams3 := [],
    Tokenizer := m.Tokenizer.Clear }

/-- The serialized model stream, one field per `NSaveLoad` read/write.
Modelled from the spec (§4.5): the byte-level primitives live in headers
not under `src/`; the payload is the smoothing constant, the forward
vocabulary, `TotalWords`, the perfect-hash structure and the bucket array,
framed by the magic constant and the version. -/
structure TModelFile where
  leadMagic : Nat
  version : Nat
  k : ℚ
  wordToId : List (TWord × TWordId)
  totalWords : Nat
  perfectHash : TPerfectHash
  buckets : List (Nat × TCount)
  trailMagic : Nat

/-- Embedding of `TLangModel::Save` (lines 160-166): magic, version, payload, magic. -/
def TLangModel.Save (m : TLangModel) : TModelFile :=
  { leadMagic := MAGIC_BYTE,
    version := VERSION,
    k := m.K,
    wordToId := m.WordToId,
    totalWords := m.TotalWords,
    perfectHash := m.PerfectHash,
    buckets := m.Buckets,
    trailMagic := MAGIC_BYTE }

/-- Rebuild of the reverse vocabulary index on successful load (lines
187-191): a fresh null-filled array of size `WordToId.size() + 1` with the
canonical word written at each id position. -/
def rebuildIdToWord (wti : List (TWord × TWordId)) : List (Option TWord) :=
  wti.foldl (fun acc p => acc.set p.2 (some p.1))
    (List.replicate (wti.length + 1) none)

/-- Embedding of `TLangModel::Load` (lines 168-193): fail immediately on a leading-magic
or version mismatch, leaving the model as it was; otherwise read the
payload into the model, and on a trailing-magic mismatch call `Clear` and
fail; on success rebuild the reverse vocabulary index. -/
def TLangModel.Load (m : TLangModel) (f : TModelFile) : Bool × TLangModel :=
  if f.leadMagic ≠ MAGIC_BYTE then (false, m)
  else if f.version ≠ VERSION then (false, m)
  else
    let m1 := { m with
      K := f.k,
      WordToId := f.wordToId,
      TotalWords := f.totalWords,
      PerfectHash := f.perfectHash,
      Buckets := f.buckets }
    if f.trailMagic ≠ MAGIC_BYTE then (false, m1.Clear)
    else (true, { m1 with IdToWord := rebuildIdToWord f.wordToId })

/-- Embedding of `TLangModel::Score(const std::wstring&)` (lines 149-158): tokenize the
raw text into sentences, concatenate the words of all sentences into one
flat sequence, and score that single sequence.  The tokenizer's `Process`
is an external collaborator and is taken as a parameter. -/
def TLangModel.ScoreText (m : TLangModel) (lg : ℚ → ℚ) (h32 : List Nat → Nat)
    (process : List Char → List (List TWord)) (str : List Char) : ℚ :=
  let sentences := process str
  let words := sentences.foldl (fun acc s => acc ++ s) []
  m.Score lg h32 words

/-- The scoring sum exactly as the claim states it: the terms for every
position `i` from `0` to `len - 2` inclusive, where `len` is the number of
input words.  This is the spec-side definition, written from the claim's
words for comparison against `TLangModel.Score` (which is translated from
the source). -/
def scoreSpecUpToLenMinus2 (m : TLangModel) (lg : ℚ → ℚ) (h32 : List Nat → Nat)
    (words : List TWord) : ℚ :=
  ((List.range (words.length - 1)).map
    (gramTerm m lg h32 (sentinelled (words.map m.GetWordIdNoCreate)))).sum

/-- The identity as the outer log wrapper (concrete instantiation used by
witnesses and counterexamples). -/
def lgId : ℚ → ℚ := fun q => q

/-- A constant outer log wrapper (concrete instantiation used by witnesses
and counterexamples). -/
def lgOne : ℚ → ℚ := fun _ => 1

/-- A concrete 32-bit content hash for witnesses: the byte sum. -/
def h32sum : List Nat → Nat := fun s => s.sum

/-- A freshly constructed model: all state empty, `K` at its default. -/
def emptyModel : TLangModel :=
  { K := DEFAULT_K,
    WordToId := [],
    IdToWord := [],
    LastWordID := 0,
    TotalWords := 0,
    Grams1 := [],
    Grams2 := [],
    Grams3 := [],
    Tokenizer := { alphabet := [] },
    PerfectHash := { hashF := fun _ => 0, bucketsNumber := 0 },
    Buckets := [] }

/-- A small concrete trained-shaped model for witnesses: bucket indices are
serialized-length based (unigram keys land in bucket 1, bigrams in 2,
trigrams in 0), and bucket 1 stores the fingerprint `h32sum` assigns to the
unigram key of word id 5. -/
def mDemo : TLangModel :=
  { K := 1 / 2,
    WordToId := [(['a'], 5)],
    IdToWord := [],
    LastWordID := 6,
    TotalWords := 5,
    Grams1 := [(5, 9)],
    Grams2 := [],
    Grams3 := [],
    Tokenizer := { alphabet := [] },
    PerfectHash := { hashF := fun s => s.length % 3, bucketsNumber := 3 },
    Buckets := [(0, 7), (5, 9), (1, 4)] }

/-- A one-word trained-shaped model for the Save/Load round-trip claims:
word `'a'` has id 0, occurred once, and its unigram bucket holds the
matching fingerprint. -/
def mC1 : TLangModel :=
  { K := 1,
    WordToId := [(['a'], 0)],
    IdToWord := [some ['a']],
    LastWordID := 1,
    TotalWords := 1,
    Grams1 := [(0, 1)],
    Grams2 := [],
    Grams3 := [],
    Tokenizer := { alphabet := [] },
    PerfectHash := { hashF := fun _ => 0, bucketsNumber := 1 },
    Buckets := [(0, 1)] }

/-- A serialized stream whose framing is valid except for the trailing
magic: the payload carries nonempty data. -/
def fBadTrail : TModelFile :=
  { leadMagic := MAGIC_BYTE,
    version := VERSION,
    k := 2,
    wordToId := [(['b'], 0)],
    totalWords := 7,
    perfectHash := { hashF := fun _ => 0, bucketsNumber := 1 },
    buckets := [(5, 9)],
    trailMagic := 0 }

/-! ## Helper lemmas -/

lemma getD_eq_get {α : Type} (l : List α) (d : α) (n : Nat) (h : n < l.length) :
    l.getD n d = l.get ⟨n, h⟩ := by
  rw [List.getD_eq_getElem l d h, List.get_eq_getElem]

lemma foldl_add_eq_sum (f : Nat → ℚ) (l : List Nat) (init : ℚ) :
    l.foldl (fun a i => a + f i) init = init + (l.map f).sum := by
  induction l generalizing init with
  | nil => simp
  | cons x xs ih => simp [List.foldl_cons, ih, add_assoc]

lemma score_eq_sum (m : TLangModel) (lg : ℚ → ℚ) (h32 : List Nat → Nat)
    (words : List TWord) (h : words ≠ []) :
    m.Score lg h32 words =
      ((List.range words.length).map
        (gramTerm m lg h32 (sentinelled (words.map m.GetWordIdNoCreate)))).sum := by
  have hmap : words.map m.GetWordIdNoCreate ≠ [] := by
    simpa [List.map_eq_nil_iff] using h
  have hlen : (words.map m.GetWordIdNoCreate ++ [UnknownWordId, UnknownWordId]).length - 2
      = words.length := by simp
  simp only [TLangModel.Score, if_neg hmap, hlen]
  rw [List.foldl_ext _
    (fun (a : ℚ) (i : Nat) =>
      a + gramTerm m lg h32 (sentinelled (words.map m.GetWordIdNoCreate)) i) 0
    (by intro a b hb; simp [gramTerm, sentinelled, add_assoc])]
  rw [foldl_add_eq_sum, zero_add]

lemma countOf_bumpCount {κ : Type} [DecidableEq κ] (g : List (κ × Nat)) (k k' : κ) :
    countOf (bumpCount g k) k' = countOf g k' + (if k = k' then 1 else 0) := by
  induction g with
  | nil => by_cases h : k = k' <;> simp [bumpCount, countOf, h]
  | cons p rest ih =>
      by_cases hp : p.1 = k
      · by_cases hk : p.1 = k'
        · have hkk : k = k' := hp ▸ hk
          simp [bumpCount, countOf, hp, hk, hkk]
        · have hkk : ¬ k = k' := fun he => hk (he ▸ hp)
          simp [bumpCount, countOf, hp, hk, hkk]
      · by_cases hk : p.1 = k'
        · have hkk : ¬ k' = k := fun he => hp (hk.trans he)
          have hkk2 : ¬ k = k' := fun he => hp (hk.trans he.symm)
          simp [bumpCount, countOf, hp, hk, hkk, hkk2]
        · simp [bumpCount, countOf, hp, hk, ih]

lemma countOf_foldl_bumpCount {κ : Type} [DecidableEq κ] (ks : List κ)
    (g : List (κ × Nat)) (k : κ) :
    countOf (ks.foldl bumpCount g) k = countOf g k + occurrences ks k := by
  induction ks generalizing g with
  | nil => simp [occurrences]
  | cons x xs ih =>
      rw [List.foldl_cons, ih, countOf_bumpCount]
      simp only [occurrences]
      by_cases h : x = k <;> simp [h] <;> omega

lemma foldl_gram1Step (ws : List TWordId) (m : TLangModel) :
    ((ws.foldl gram1Step m).Grams1 = ws.foldl bumpCount m.Grams1)
    ∧ ((ws.foldl gram1Step m).Grams2 = m.Grams2)
    ∧ ((ws.foldl gram1Step m).Grams3 = m.Grams3)
    ∧ ((ws.foldl gram1Step m).TotalWords = m.TotalWords + ws.length) := by
  induction ws generalizing m with
  | nil => simp
  | cons w ws ih =>
      obtain ⟨h1, h2, h3, h4⟩ := ih (gram1Step m w)
      refine ⟨?_, ?_, ?_, ?_⟩
      · rw [List.foldl_cons, h1]; rfl
      · rw [List.foldl_cons, h2]; rfl
      · rw [List.foldl_cons, h3]; rfl
      · rw [List.foldl_cons, h4]
        show m.TotalWords + 1 + ws.length = m.TotalWords + (ws.length + 1)
        omega

lemma foldl_gram2Step (idxs : List Nat) (ws : List TWordId) (m : TLangModel) :
    ((idxs.foldl (gram2Step ws) m).Grams2
        = (idxs.map (gram2KeyAt ws)).foldl bumpCount m.Grams2)
    ∧ ((idxs.foldl (gram2Step ws) m).Grams1 = m.Grams1)
    ∧ ((idxs.foldl (gram2Step ws) m).Grams3 = m.Grams3)
    ∧ ((idxs.foldl (gram2Step ws) m).TotalWords = m.TotalWords) := by
  induction idxs generalizing m with
  | nil => simp
  | cons j js ih =>
      obtain ⟨h1, h2, h3, h4⟩ := ih (gram2Step ws m j)
      exact ⟨by rw [List.foldl_cons, h1]; rfl, by rw [List.foldl_cons, h2]; rfl,
        by rw [List.foldl_cons, h3]; rfl, by rw [List.foldl_cons, h4]; rfl⟩

lemma foldl_gram3Step (idxs : List Nat) (ws : List TWordId) (m : TLangModel) :
    ((idxs.foldl (gram3Step ws) m).Grams3
        = (idxs.map (gram3KeyAt ws)).foldl bumpCount m.Grams3)
    ∧ ((idxs.foldl (gram3Step ws) m).Grams1 = m.Grams1)
    ∧ ((idxs.foldl (gram3Step ws) m).Grams2 = m.Grams2)
    ∧ ((idxs.foldl (gram3Step ws) m).TotalWords = m.TotalWords) := by
  induction idxs generalizing m with
  | nil => simp
  | cons j js ih =>
      obtain ⟨h1, h2, h3, h4⟩ := ih (gram3Step ws m j)
      exact ⟨by rw [List.foldl_cons, h1]; rfl, by rw [List.foldl_cons, h2]; rfl,
        by rw [List.foldl_cons, h3]; rfl, by rw [List.foldl_cons, h4]; rfl⟩

lemma accumulateSentence_proj (m : TLangModel) (ws : List TWordId) :
    ((m.accumulateSentence ws).Grams1 = ws.foldl bumpCount m.Grams1)
    ∧ ((m.accumulateSentence ws).Grams2 = (adjacentPairs ws).foldl bumpCount m.Grams2)
    ∧ ((m.accumulateSentence ws).Grams3 = (adjacentTriples ws).foldl bumpCount m.Grams3)
    ∧ ((m.accumulateSentence ws).TotalWords = m.TotalWords + ws.length) := by
  simp only [TLangModel.accumulateSentence]
  obtain ⟨a1, a2, a3, a4⟩ := foldl_gram1Step ws m
  obtain ⟨b2, b1, b3, b4⟩ :=
    foldl_gram2Step (List.range (ws.length - 1)) ws (ws.foldl gram1Step m)
  obtain ⟨c3, c1, c2, c4⟩ := foldl_gram3Step (List.range (ws.length - 2)) ws
    ((List.range (ws.length - 1)).foldl (gram2Step ws) (ws.foldl gram1Step m))
  refine ⟨?_, ?_, ?_, ?_⟩
  · rw [c1, b1, a1]
  · rw [c2, b2, a2]; rfl
  · rw [c3, b3, a3]; rfl
  · rw [c4, b4, a4]

lemma accumulateSentence_counts (m : TLangModel) (ws : List TWordId)
    (w : TWordId) (p : TWordId × TWordId) (t : TWordId × TWordId × TWordId) :
    (countOf (m.accumulateSentence ws).Grams1 w = countOf m.Grams1 w + occurrences ws w)
    ∧ (countOf (m.accumulateSentence ws).Grams2 p
        = countOf m.Grams2 p + occurrences (adjacentPairs ws) p)
    ∧ (countOf (m.accumulateSentence ws).Grams3 t
        = countOf m.Grams3 t + occurrences (adjacentTriples ws) t)
    ∧ ((m.accumulateSentence ws).TotalWords = m.TotalWords + ws.length) := by
  obtain ⟨h1, h2, h3, h4⟩ := accumulateSentence_proj m ws
  exact ⟨by rw [h1, countOf_foldl_bumpCount],
    by rw [h2, countOf_foldl_bumpCount],
    by rw [h3, countOf_foldl_bumpCount], h4⟩

lemma getWordIdNoCreate_congr {m1 m2 : TLangModel} (hW : m1.WordToId = m2.WordToId) :
    m1.GetWordIdNoCreate = m2.GetWordIdNoCreate := by
  funext w
  simp [TLangModel.GetWordIdNoCreate, hW]

lemma gramHashCount_congr {m1 m2 : TLangModel} (hPH : m1.PerfectHash = m2.PerfectHash)
    (hB : m1.Buckets = m2.Buckets) :
    m1.GetGram1HashCount = m2.GetGram1HashCount
    ∧ m1.GetGram2HashCount = m2.GetGram2HashCount
    ∧ m1.GetGram3HashCount = m2.GetGram3HashCount := by
  refine ⟨?_, ?_, ?_⟩
  · funext h32 w
    simp [TLangModel.GetGram1HashCount, hPH, hB]
  · funext h32 w1 w2
    simp [TLangModel.GetGram2HashCount, hPH, hB]
  · funext h32 w1 w2 w3
    simp [TLangModel.GetGram3HashCount, hPH, hB]

lemma score_congr {m1 m2 : TLangModel} (hW : m1.WordToId = m2.WordToId)
    (hK : m1.K = m2.K) (hT : m1.TotalWords = m2.TotalWords)
    (hV : m1.Grams1.length = m2.Grams1.length)
    (hPH : m1.PerfectHash = m2.PerfectHash) (hB : m1.Buckets = m2.Buckets)
    (lg : ℚ → ℚ) (h32 : List Nat → Nat) (words : List TWord) :
    m1.Score lg h32 words = m2.Score lg h32 words := by
  obtain ⟨hc1, hc2, hc3⟩ := gramHashCount_congr hPH hB
  have e0 := getWordIdNoCreate_congr hW
  have e1 : m1.GetGram1Prob = m2.GetGram1Prob := by
    funext h32 w
    simp [TLangModel.GetGram1Prob, hc1, hK, hT, hV]
  have e2 : m1.GetGram2Prob = m2.GetGram2Prob := by
    funext h32 w1 w2
    simp [TLangModel.GetGram2Prob, hc1, hc2, hK, hT]
  have e3 : m1.GetGram3Prob = m2.GetGram3Prob := by
    funext h32 w1 w2 w3
    simp [TLangModel.GetGram3Prob, hc2, hc3, hK, hT]
  simp only [TLangModel.Score, e0, e1, e2, e3]

/-! ## Claim theorems -/

/-- Claim C2: in every model, the three estimators compute exactly the
spec's smoothed formulas: `P1(a) = (count1(a) + K) / (TotalWords + V1)`
with `V1` the size of the unigram map (its keys, the distinct unigrams);
`P2(a,b) = (c2' + K) / (c1 + TotalWords)` where `c2'` is `c2` zeroed when
`c2 > c1`; `P3(a,b,c) = (c3' + K) / (c2 + TotalWords)` where `c3'` is `c3`
zeroed when `c3 > c2`. -/
theorem gram_prob_formulas (m : TLangModel) (h32 : List Nat → Nat) (a b c : TWordId) :
    (m.GetGram1Prob h32 a
        = ((m.GetGram1HashCount h32 a : ℚ) + m.K)
            / ((m.TotalWords : ℚ) + (m.Grams1.length : ℚ)))
    ∧ (m.GetGram2Prob h32 a b
        = (((if m.GetGram1HashCount h32 a < m.GetGram2HashCount h32 a b then (0 : Nat)
              else m.GetGram2HashCount h32 a b) : ℚ) + m.K)
            / ((m.GetGram1HashCount h32 a : ℚ) + (m.TotalWords : ℚ)))
    ∧ (m.GetGram3Prob h32 a b c
        = (((if m.GetGram2HashCount h32 a b < m.GetGram3HashCount h32 a b c then (0 : Nat)
              else m.GetGram3HashCount h32 a b c) : ℚ) + m.K)
            / ((m.GetGram2HashCount h32 a b : ℚ) + (m.TotalWords : ℚ))) := by
  refine ⟨rfl, ?_, ?_⟩
  · by_cases h : m.GetGram1HashCount h32 a < m.GetGram2HashCount h32 a b
    · have hq : (m.GetGram1HashCount h32 a : ℚ) < (m.GetGram2HashCount h32 a b : ℚ) := by
        exact_mod_cast h
      simp [TLangModel.GetGram2Prob, h, hq]
    · have hq : ¬ (m.GetGram1HashCount h32 a : ℚ) < (m.GetGram2HashCount h32 a b : ℚ) := by
        exact_mod_cast h
      simp [TLangModel.GetGram2Prob, h, hq]
  · by_cases h : m.GetGram2HashCount h32 a b < m.GetGram3HashCount h32 a b c
    · have hq : (m.GetGram2HashCount h32 a b : ℚ) < (m.GetGram3HashCount h32 a b c : ℚ) := by
        exact_mod_cast h
      simp [TLangModel.GetGram3Prob, h, hq]
    · have hq : ¬ (m.GetGram2HashCount h32 a b : ℚ) < (m.GetGram3HashCount h32 a b c : ℚ) := by
        exact_mod_cast h
      simp [TLangModel.GetGram3Prob, h, hq]

/-- Claim C3: every gram-count lookup short-circuits to zero when any
constituent id is the unknown sentinel, and otherwise returns the count
stored at the perfect-hash bucket of the serialized key exactly when the
stored fingerprint equals the content hash of that key, and zero (never
the occupant's count) on a fingerprint mismatch.  The in-range hypotheses
are the source's `assert(bucket < ph.BucketsNumber())`. -/
theorem gram_hash_lookup (m : TLangModel) (h32 : List Nat → Nat) (a b c : TWordId) :
    (a = UnknownWordId → m.GetGram1HashCount h32 a = 0)
    ∧ (a = UnknownWordId ∨ b = UnknownWordId → m.GetGram2HashCount h32 a b = 0)
    ∧ (a = UnknownWordId ∨ b = UnknownWordId ∨ c = UnknownWordId →
        m.GetGram3HashCount h32 a b c = 0)
    ∧ (a ≠ UnknownWordId →
        ∀ hb : m.PerfectHash.hashF (DumpKey (TGramKey.g1 a)) < m.Buckets.length,
          m.GetGram1HashCount h32 a =
            if (m.Buckets.get ⟨m.PerfectHash.hashF (DumpKey (TGramKey.g1 a)), hb⟩).1
                = h32 (DumpKey (TGramKey.g1 a))
            then (m.Buckets.get ⟨m.PerfectHash.hashF (DumpKey (TGramKey.g1 a)), hb⟩).2
            else 0)
    ∧ (a ≠ UnknownWordId → b ≠ UnknownWordId →
        ∀ hb : m.PerfectHash.hashF (DumpKey (TGramKey.g2 a b)) < m.Buckets.length,
          m.GetGram2HashCount h32 a b =
            if (m.Buckets.get ⟨m.PerfectHash.hashF (DumpKey (TGramKey.g2 a b)), hb⟩).1
                = h32 (DumpKey (TGramKey.g2 a b))
            then (m.Buckets.get ⟨m.PerfectHash.hashF (DumpKey (TGramKey.g2 a b)), hb⟩).2
            else 0)
    ∧ (a ≠ UnknownWordId → b ≠ UnknownWordId → c ≠ UnknownWordId →
        ∀ hb : m.PerfectHash.hashF (DumpKey (TGramKey.g3 a b c)) < m.Buckets.length,
          m.GetGram3HashCount h32 a b c =
            if (m.Buckets.get ⟨m.PerfectHash.hashF (DumpKey (TGramKey.g3 a b c)), hb⟩).1
                = h32 (DumpKey (TGramKey.g3 a b c))
            then (m.Buckets.get ⟨m.PerfectHash.hashF (DumpKey (TGramKey.g3 a b c)), hb⟩).2
            else 0) := by
  refine ⟨?_, ?_, ?_, ?_, ?_, ?_⟩
  · intro h
    simp [TLangModel.GetGram1HashCount, h]
  · intro h
    simp [TLangModel.GetGram2HashCount, h]
  · intro h
    simp [TLangModel.GetGram3HashCount, h]
  · intro ha hb
    simp only [TLangModel.GetGram1HashCount, if_neg ha, GetGramHashCount]
    rw [getD_eq_get m.Buckets (0, 0) _ hb]
  · intro ha hb2 hb
    have : ¬ (a = UnknownWordId ∨ b = UnknownWordId) := by
      intro h
      rcases h with h | h
      · exact ha h
      · exact hb2 h
    simp only [TLangModel.GetGram2HashCount, if_neg this, GetGramHashCount]
    rw [getD_eq_get m.Buckets (0, 0) _ hb]
  · intro ha hb2 hc hb
    have : ¬ (a = UnknownWordId ∨ b = UnknownWordId ∨ c = UnknownWordId) := by
      intro h
      rcases h with h | h | h
      · exact ha h
      · exact hb2 h
      · exact hc h
    simp only [TLangModel.GetGram3HashCount, if_neg this, GetGramHashCount]
    rw [getD_eq_get m.Buckets (0, 0) _ hb]

/-- Witness for `gram_hash_lookup` at the concrete model `mDemo`: the
unigram key of id 5 lands in bucket 1 whose fingerprint matches, so the
stored count 9 is returned; a bigram containing the unknown sentinel
short-circuits to 0. -/
theorem gram_hash_lookup_witness :
    mDemo.GetGram1HashCount h32sum 5 = 9
    ∧ mDemo.GetGram2HashCount h32sum 5 UnknownWordId = 0 := by
  have h := gram_hash_lookup mDemo h32sum 5 UnknownWordId 0
  constructor
  · have h4 := h.2.2.2.1 (by decide) (by decide)
    rw [h4]
    decide
  · exact h.2.1 (Or.inr rfl)

/-- Claim C4 counterexample: the claim's sum runs `i` from `0` to `len - 2`
inclusive, but the loop bound is `sentence.size() - 2` *after* the two
sentinels are appended, i.e. `i` runs to `len - 1`.  At a one-word input
the claimed sum is empty while `Score` accumulates one term triple. -/
theorem score_loop_bound_counterexample :
    mDemo.Score lgOne h32sum [['a']]
      ≠ scoreSpecUpToLenMinus2 mDemo lgOne h32sum [['a']] := by
  have hL : mDemo.Score lgOne h32sum [['a']] = 3 := by
    norm_num [TLangModel.Score, lgOne, List.range_succ]
  have hR : scoreSpecUpToLenMinus2 mDemo lgOne h32sum [['a']] = 0 := by
    norm_num [scoreSpecUpToLenMinus2]
  rw [hL, hR]
  norm_num

/-- Claim C4, amended: for every non-empty sequence of `len` input words,
`Score` converts each word through the non-allocating lookup, appends
exactly two `UnknownWordId` sentinels, and returns the sum, for every
position `i` from `0` to `len - 1` inclusive (not `len - 2`), of
`ln(P1(w[i])) + ln(P2(w[i],w[i+1])) + ln(P3(w[i],w[i+1],w[i+2]))`. -/
theorem score_sums_terms_up_to_len_minus_one (m : TLangModel) (lg : ℚ → ℚ)
    (h32 : List Nat → Nat) (words : List TWord) (h : words ≠ []) :
    m.Score lg h32 words =
      ((List.range words.length).map
        (gramTerm m lg h32 (sentinelled (words.map m.GetWordIdNoCreate)))).sum :=
  score_eq_sum m lg h32 words h

/-- Witness for `score_sums_terms_up_to_len_minus_one` at a one-word
input. -/
theorem score_sums_terms_witness :
    ([['a']] : List TWord) ≠ []
    ∧ mDemo.Score lgId h32sum [['a']] =
        ((List.range 1).map
          (gramTerm mDemo lgId h32sum
            (sentinelled ([['a']].map mDemo.GetWordIdNoCreate)))).sum := by
  refine ⟨by decide, ?_⟩
  have h := score_sums_terms_up_to_len_minus_one mDemo lgId h32sum [['a']] (by decide)
  simpa using h

/-- Claim C6: `Score` never errors: the empty word sequence returns the
sentinel `DOUBLE_MIN` (`std::numeric_limits<double>::min()`) rather than a
computed log-probability, and every non-empty (even all-unknown) sequence
returns the computed accumulated sum; furthermore in a trained model
(positive `K` and `TotalWords`) every probability passed to the logarithm
is strictly positive, which is what makes the real-log value finite. -/
theorem score_never_fails (m : TLangModel) (lg : ℚ → ℚ) (h32 : List Nat → Nat)
    (words : List TWord) :
    (m.Score lg h32 [] = DOUBLE_MIN)
    ∧ (words ≠ [] →
        m.Score lg h32 words =
          ((List.range words.length).map
            (gramTerm m lg h32 (sentinelled (words.map m.GetWordIdNoCreate)))).sum)
    ∧ (0 < m.K → 0 < m.TotalWords →
        (∀ a, 0 < m.GetGram1Prob h32 a)
        ∧ (∀ a b, 0 < m.GetGram2Prob h32 a b)
        ∧ (∀ a b c, 0 < m.GetGram3Prob h32 a b c)) := by
  refine ⟨rfl, fun h => score_eq_sum m lg h32 words h, fun hK hT => ⟨?_, ?_, ?_⟩⟩
  all_goals
    have hT' : (0 : ℚ) < (m.TotalWords : ℚ) := by exact_mod_cast hT
  · intro a
    simp only [TLangModel.GetGram1Prob]
    exact div_pos (add_pos_of_nonneg_of_pos (Nat.cast_nonneg _) hK)
      (add_pos_of_pos_of_nonneg hT' (Nat.cast_nonneg _))
  · intro a b
    simp only [TLangModel.GetGram2Prob]
    refine div_pos (add_pos_of_nonneg_of_pos ?_ hK)
      (add_pos_of_nonneg_of_pos (Nat.cast_nonneg _) hT')
    split
    · exact le_refl 0
    · exact Nat.cast_nonneg _
  · intro a b c
    simp only [TLangModel.GetGram3Prob]
    refine div_pos (add_pos_of_nonneg_of_pos ?_ hK)
      (add_pos_of_nonneg_of_pos (Nat.cast_nonneg _) hT')
    split
    · exact le_refl 0
    · exact Nat.cast_nonneg _

/-- Witness for `score_never_fails` at the concrete model `mDemo`. -/
theorem score_never_fails_witness :
    (([['a']] : List TWord) ≠ [] ∧ (0 : ℚ) < mDemo.K ∧ 0 < mDemo.TotalWords)
    ∧ mDemo.Score lgId h32sum [] = DOUBLE_MIN
    ∧ mDemo.Score lgId h32sum [['a']] =
        ((List.range ([['a']] : List TWord).length).map
          (gramTerm mDemo lgId h32sum
            (sentinelled ([['a']].map mDemo.GetWordIdNoCreate)))).sum
    ∧ 0 < mDemo.GetGram1Prob h32sum 5 := by
  have h := score_never_fails mDemo lgId h32sum [['a']]
  exact ⟨⟨by decide, by norm_num [mDemo], by decide⟩, h.1, h.2.1 (by decide),
    (h.2.2 (by norm_num [mDemo]) (by decide)).1 5⟩

/-- Claim C7: the training accumulator, run over any list of id sentences,
adds to each unigram count the number of occurrences of that id within the
sentences, to each bigram (trigram) count the number of *within-sentence*
adjacent ordered pairs (triples) equal to that key, and to `TotalWords`
the total number of word occurrences.  Because only within-sentence
pairs and triples ever contribute, no bigram or trigram key combines
words of two different sentences. -/
theorem train_counts_per_sentence (m : TLangModel) (sents : List (List TWordId))
    (w : TWordId) (p : TWordId × TWordId) (t : TWordId × TWordId × TWordId) :
    (countOf (m.trainCounts sents).Grams1 w
        = countOf m.Grams1 w + (sents.map (fun s => occurrences s w)).sum)
    ∧ (countOf (m.trainCounts sents).Grams2 p
        = countOf m.Grams2 p + (sents.map (fun s => occurrences (adjacentPairs s) p)).sum)
    ∧ (countOf (m.trainCounts sents).Grams3 t
        = countOf m.Grams3 t + (sents.map (fun s => occurrences (adjacentTriples s) t)).sum)
    ∧ ((m.trainCounts sents).TotalWords = m.TotalWords + (sents.map List.length).sum) := by
  induction sents generalizing m with
  | nil => simp [TLangModel.trainCounts]
  | cons s ss ih =>
      obtain ⟨i1, i2, i3, i4⟩ := ih (m.accumulateSentence s)
      obtain ⟨a1, a2, a3, a4⟩ := accumulateSentence_counts m s w p t
      simp only [TLangModel.trainCounts, List.foldl_cons] at i1 i2 i3 i4 ⊢
      refine ⟨?_, ?_, ?_, ?_⟩
      · rw [i1, a1]
        simp only [List.map_cons, List.sum_cons]
        omega
      · rw [i2, a2]
        simp only [List.map_cons, List.sum_cons]
        omega
      · rw [i3, a3]
        simp only [List.map_cons, List.sum_cons]
        omega
      · rw [i4, a4]
        simp only [List.map_cons, List.sum_cons]
        omega

/-- Claim C8: interning is idempotent — whenever `GetWordId` succeeds with
id `i` and resulting model `m2`, calling it again on `m2` with the same
word returns the same id and leaves the model unmodified; a word absent
from the vocabulary is interned with the next sequential id, which
advances the allocator by one; and the scoring-path lookup of an absent
word returns `UnknownWordId` (and, being read-only by type, never creates
an entry). -/
theorem vocabulary_idempotence (m : TLangModel) (w : TWord) :
    (∀ i m2, m.GetWordId w = some (i, m2) → m2.GetWordId w = some (i, m2))
    ∧ (w ≠ [] → w.length < 10000 →
        m.WordToId.find? (fun p => decide (p.1 = w)) = none →
        ∃ m2, m.GetWordId w = some (m.LastWordID, m2)
          ∧ m2.LastWordID = m.LastWordID + 1)
    ∧ (m.WordToId.find? (fun p => decide (p.1 = w)) = none →
        m.GetWordIdNoCreate w = UnknownWordId) := by
  refine ⟨?_, ?_, ?_⟩
  · intro i m2 h
    by_cases hbad : w = [] ∨ 10000 ≤ w.length
    · simp [TLangModel.GetWordId, hbad] at h
    · rcases hfind : m.WordToId.find? (fun p => decide (p.1 = w)) with _ | p
      · simp only [TLangModel.GetWordId, if_neg hbad, hfind, Option.some.injEq,
          Prod.mk.injEq] at h
        obtain ⟨hi, hm⟩ := h
        subst hi
        subst hm
        have hfind2 : (m.WordToId ++ [(w, m.LastWordID)]).find?
            (fun p => decide (p.1 = w)) = some (w, m.LastWordID) := by
          rw [List.find?_append, hfind]
          simp
        simp only [TLangModel.GetWordId, if_neg hbad]
        simp [hfind2]
      · simp only [TLangModel.GetWordId, if_neg hbad, hfind, Option.some.injEq,
          Prod.mk.injEq] at h
        obtain ⟨hi, hm⟩ := h
        subst hi
        subst hm
        simp [TLangModel.GetWordId, hbad, hfind]
  · intro hne hlen hfind
    have hbad : ¬ (w = [] ∨ 10000 ≤ w.length) := by
      rintro (h | h)
      · exact hne h
      · omega
    refine ⟨{ m with
        WordToId := m.WordToId ++ [(w, m.LastWordID)],
        LastWordID := m.LastWordID + 1,
        IdToWord := m.IdToWord ++ [some w] }, ?_, rfl⟩
    simp [TLangModel.GetWordId, hbad, hfind]
  · intro hfind
    simp [TLangModel.GetWordIdNoCreate, hfind]

/-- Witness for `vocabulary_idempotence`: interning `"a"` into the empty
model allocates id 0 and advances the allocator; looking it up read-only
yields the unknown sentinel. -/
theorem vocabulary_idempotence_witness :
    (∃ m2, emptyModel.GetWordId ['a'] = some (emptyModel.LastWordID, m2)
      ∧ m2.LastWordID = emptyModel.LastWordID + 1)
    ∧ emptyModel.GetWordIdNoCreate ['a'] = UnknownWordId := by
  have h := vocabulary_idempotence emptyModel ['a']
  exact ⟨h.2.1 (by decide) (by decide) rfl, h.2.2 rfl⟩

/-- Claim C9: the interning path asserts its precondition — a word longer
than the 10000-character bound is rejected by the fatal assertion
(modelled as `none`), and under the precondition (non-empty, length below
the bound) the assertion branch is unreachable and the operation always
succeeds. -/
theorem intern_length_precondition (m : TLangModel) (w : TWord) :
    (10000 < w.length → m.GetWordId w = none)
    ∧ (w ≠ [] → w.length < 10000 → (m.GetWordId w).isSome = true) := by
  constructor
  · intro h
    have hbad : w = [] ∨ 10000 ≤ w.length := Or.inr (by omega)
    simp [TLangModel.GetWordId, hbad]
  · intro hne hlen
    have hbad : ¬ (w = [] ∨ 10000 ≤ w.length) := by
      rintro (h | h)
      · exact hne h
      · omega
    rcases hfind : m.WordToId.find? (fun p => decide (p.1 = w)) with _ | p
    · simp [TLangModel.GetWordId, hbad, hfind]
    · simp [TLangModel.GetWordId, hbad, hfind]

/-- Witness for `intern_length_precondition`: a 10001-character word is
rejected; the one-character word `"a"` is interned successfully. -/
theorem intern_length_precondition_witness :
    (10000 < (List.replicate 10001 'a').length
      ∧ emptyModel.GetWordId (List.replicate 10001 'a') = none)
    ∧ ((['a'] : TWord) ≠ [] ∧ (['a'] : TWord).length < 10000
      ∧ (emptyModel.GetWordId ['a']).isSome = true) := by
  have h1 := (intern_length_precondition emptyModel (List.replicate 10001 'a')).1
  have h2 := (intern_length_precondition emptyModel ['a']).2
  have hlen : (List.replicate 10001 'a').length = 10001 := List.length_replicate 10001 'a'
  refine ⟨⟨by omega, h1 (by omega)⟩, by decide, by decide, h2 (by decide) (by decide)⟩

/-- Claim C5 counterexample: after a trailing-magic mismatch `Load` calls
`Clear`, but `Clear` does not reset the bucket array (nor the perfect-hash
index or the reverse vocabulary index), so the just-loaded payload buckets
remain in the failed model — the claim that no half-populated bucket
array/perfect-hash index remains is false. -/
theorem load_trailing_magic_counterexample :
    (emptyModel.Load fBadTrail).1 = false
    ∧ (emptyModel.Load fBadTrail).2.Buckets = [(5, 9)]
    ∧ (emptyModel.Load fBadTrail).2.Buckets ≠ [] := by
  refine ⟨by decide, by decide, by decide⟩

/-- Claim C5, amended: `Load` fails immediately (model untouched) on a
leading-magic or version mismatch; on a trailing-magic mismatch it fails
after `Clear`, which resets `K`, the forward vocabulary, the id allocator,
`TotalWords` and the three raw gram maps, but leaves the just-loaded
bucket array and perfect-hash index, and the stale reverse index, in
place; on success it rebuilds the reverse id-to-word index from the
forward word-to-id map. -/
theorem load_protocol (m : TLangModel) (f : TModelFile) :
    (f.leadMagic ≠ MAGIC_BYTE → m.Load f = (false, m))
    ∧ (f.leadMagic = MAGIC_BYTE → f.version ≠ VERSION → m.Load f = (false, m))
    ∧ (f.leadMagic = MAGIC_BYTE → f.version = VERSION → f.trailMagic ≠ MAGIC_BYTE →
        (m.Load f).1 = false
        ∧ (m.Load f).2.K = DEFAULT_K
        ∧ (m.Load f).2.WordToId = []
        ∧ (m.Load f).2.LastWordID = 0
        ∧ (m.Load f).2.TotalWords = 0
        ∧ (m.Load f).2.Grams1 = []
        ∧ (m.Load f).2.Grams2 = []
        ∧ (m.Load f).2.Grams3 = []
        ∧ (m.Load f).2.Buckets = f.buckets
        ∧ (m.Load f).2.PerfectHash = f.perfectHash
        ∧ (m.Load f).2.IdToWord = m.IdToWord)
    ∧ (f.leadMagic = MAGIC_BYTE → f.version = VERSION → f.trailMagic = MAGIC_BYTE →
        (m.Load f).1 = true
        ∧ (m.Load f).2.IdToWord = rebuildIdToWord f.wordToId
        ∧ (m.Load f).2.K = f.k
        ∧ (m.Load f).2.WordToId = f.wordToId
        ∧ (m.Load f).2.TotalWords = f.totalWords
        ∧ (m.Load f).2.PerfectHash = f.perfectHash
        ∧ (m.Load f).2.Buckets = f.buckets) := by
  refine ⟨?_, ?_, ?_, ?_⟩
  · intro h
    simp [TLangModel.Load, h]
  · intro h1 h2
    simp [TLangModel.Load, h1, h2]
  · intro h1 h2 h3
    simp [TLangModel.Load, h1, h2, h3, TLangModel.Clear, TTokenizer.Clear]
  · intro h1 h2 h3
    simp [TLangModel.Load, h1, h2, h3]

/-- Witness for `load_protocol` on the concrete bad-trailing-magic file:
the load fails, the accumulator state is reset, yet the payload buckets
survive in the model. -/
theorem load_protocol_witness :
    (fBadTrail.leadMagic = MAGIC_BYTE ∧ fBadTrail.version = VERSION
      ∧ fBadTrail.trailMagic ≠ MAGIC_BYTE)
    ∧ (emptyModel.Load fBadTrail).1 = false
    ∧ (emptyModel.Load fBadTrail).2.TotalWords = 0
    ∧ (emptyModel.Load fBadTrail).2.Buckets = fBadTrail.buckets := by
  have h := (load_protocol emptyModel fBadTrail).2.2.1 (by decide) (by decide) (by decide)
  exact ⟨⟨by decide, by decide, by decide⟩, h.1, h.2.2.2.2.1,
    h.2.2.2.2.2.2.2.2.1⟩

/-- Claim C1 counterexample: `Score` is *not* preserved by a Save/Load round
trip onto a fresh model.  The smoothing denominator of `P1` is the *live*
unigram map's size (`Grams1.size()`, `lang_model.cpp` line 278), and the
gram maps are not part of the serialized payload, so after loading into a
fresh model the denominator term `V1` drops from 1 to 0 and the score of
the fixed sentence `"a"` changes. -/
theorem save_load_score_counterexample :
    ((emptyModel.Load mC1.Save).1 = true)
    ∧ (emptyModel.Load mC1.Save).2.Score lgId h32sum [['a']]
        ≠ mC1.Score lgId h32sum [['a']] := by
  constructor
  · decide
  · have hL : (emptyModel.Load mC1.Save).2.Score lgId h32sum [['a']] = 7 / 2 := by
      norm_num +decide [TLangModel.Score, TLangModel.Load, TLangModel.Save,
        TLangModel.GetWordIdNoCreate, TLangModel.GetGram1Prob, TLangModel.GetGram2Prob,
        TLangModel.GetGram3Prob, TLangModel.GetGram1HashCount, TLangModel.GetGram2HashCount,
        TLangModel.GetGram3HashCount, GetGramHashCount, DumpKey, dumpWordId, mC1,
        emptyModel, lgId, h32sum, UnknownWordId, MAGIC_BYTE, VERSION, List.range_succ,
        List.find?, rebuildIdToWord]
    have hR : mC1.Score lgId h32sum [['a']] = 5 / 2 := by
      norm_num +decide [TLangModel.Score, TLangModel.GetWordIdNoCreate,
        TLangModel.GetGram1Prob, TLangModel.GetGram2Prob, TLangModel.GetGram3Prob,
        TLangModel.GetGram1HashCount, TLangModel.GetGram2HashCount,
        TLangModel.GetGram3HashCount, GetGramHashCount, DumpKey, dumpWordId, mC1,
        lgId, h32sum, UnknownWordId, List.range_succ, List.find?]
    rw [hL, hR]
    norm_num

/-- Claim C1, amended: a Save/Load round trip onto a fresh model reproduces
`K`, the word-to-id map, `TotalWords`, the perfect-hash index and the
bucket array exactly; the remaining quantity `Score` depends on — the
in-memory unigram map's size, used as the smoothing denominator `V1` in
`P1` — is *not* persisted, so `Score` results are reproduced exactly when
(and only because) the receiving model's unigram map has the same size as
the original's. -/
theorem save_load_round_trip (m m0 : TLangModel)
    (h : m0.Grams1.length = m.Grams1.length) :
    ((m0.Load m.Save).1 = true)
    ∧ ((m0.Load m.Save).2.K = m.K)
    ∧ ((m0.Load m.Save).2.WordToId = m.WordToId)
    ∧ ((m0.Load m.Save).2.TotalWords = m.TotalWords)
    ∧ ((m0.Load m.Save).2.PerfectHash = m.PerfectHash)
    ∧ ((m0.Load m.Save).2.Buckets = m.Buckets)
    ∧ (∀ lg h32 words, (m0.Load m.Save).2.Score lg h32 words = m.Score lg h32 words) := by
  have h1 : (m0.Load m.Save).1 = true := by
    simp [TLangModel.Load, TLangModel.Save]
  have hK : (m0.Load m.Save).2.K = m.K := by
    simp [TLangModel.Load, TLangModel.Save]
  have hW : (m0.Load m.Save).2.WordToId = m.WordToId := by
    simp [TLangModel.Load, TLangModel.Save]
  have hT : (m0.Load m.Save).2.TotalWords = m.TotalWords := by
    simp [TLangModel.Load, TLangModel.Save]
  have hPH : (m0.Load m.Save).2.PerfectHash = m.PerfectHash := by
    simp [TLangModel.Load, TLangModel.Save]
  have hB : (m0.Load m.Save).2.Buckets = m.Buckets := by
    simp [TLangModel.Load, TLangModel.Save]
  have hV : (m0.Load m.Save).2.Grams1.length = m.Grams1.length := by
    have : (m0.Load m.Save).2.Grams1 = m0.Grams1 := by
      simp [TLangModel.Load, TLangModel.Save]
    rw [this, h]
  exact ⟨h1, hK, hW, hT, hPH, hB,
    fun lg h32 words => score_congr hW hK hT hV hPH hB lg h32 words⟩

/-- Witness for `save_load_round_trip`: loading a model's own save back
into it (unigram map size trivially equal) succeeds and reproduces the
score of the sentence `"a"`. -/
theorem save_load_round_trip_witness :
    mC1.Grams1.length = mC1.Grams1.length
    ∧ (mC1.Load mC1.Save).1 = true
    ∧ (mC1.Load mC1.Save).2.Score lgId h32sum [['a']] = mC1.Score lgId h32sum [['a']] := by
  have h := save_load_round_trip mC1 mC1 rfl
  exact ⟨rfl, h.1, h.2.2.2.2.2.2 lgId h32sum [['a']]⟩

lemma foldl_append_eq_flatten {α : Type} (L : List (List α)) (acc : List α) :
    L.foldl (fun a s => a ++ s) acc = acc ++ L.flatten := by
  induction L generalizing acc with
  | nil => simp
  | cons s ss ih => simp [List.foldl_cons, ih]

/-- Claim C10: the raw-text `Score` overload concatenates the words of all
tokenized sentences into one single sequence and scores it, so the
query-time bigram/trigram terms are computed *across* sentence boundaries:
scoring the flattened two-sentence text `[[w1],[w2]]` produces the bigram
term `P2(id(w1), id(w2))` bridging the two sentences, whereas training on
the two id sentences `[[x],[y]]` leaves every bigram count — in
particular `(x,y)` — unchanged (n-grams never span sentences there). -/
theorem text_score_concatenates_sentences (m : TLangModel) (lg : ℚ → ℚ)
    (h32 : List Nat → Nat) (process : List Char → List (List TWord))
    (str : List Char) (w1 w2 : TWord) (x y : TWordId) :
    (m.ScoreText lg h32 process str = m.Score lg h32 (process str).flatten)
    ∧ (m.Score lg h32 [w1, w2]
        = lg (m.GetGram1Prob h32 (m.GetWordIdNoCreate w1))
          + lg (m.GetGram2Prob h32 (m.GetWordIdNoCreate w1) (m.GetWordIdNoCreate w2))
          + lg (m.GetGram3Prob h32 (m.GetWordIdNoCreate w1) (m.GetWordIdNoCreate w2)
              UnknownWordId)
          + (lg (m.GetGram1Prob h32 (m.GetWordIdNoCreate w2))
            + lg (m.GetGram2Prob h32 (m.GetWordIdNoCreate w2) UnknownWordId)
            + lg (m.GetGram3Prob h32 (m.GetWordIdNoCreate w2) UnknownWordId
                UnknownWordId)))
    ∧ (countOf (m.trainCounts [[x], [y]]).Grams2 (x, y) = countOf m.Grams2 (x, y)) := by
  refine ⟨?_, ?_, ?_⟩
  · show m.Score lg h32 ((process str).foldl (fun acc s => acc ++ s) []) = _
    rw [foldl_append_eq_flatten, List.nil_append]
  · have h2 := score_eq_sum m lg h32 [w1, w2] (by simp)
    rw [h2]
    simp [gramTerm, sentinelled, List.range_succ, add_assoc]
  · have h1 := (accumulateSentence_counts m [x] x (x, y) (x, x, x)).2.1
    have h2 := (accumulateSentence_counts (m.accumulateSentence [x]) [y] x (x, y)
      (x, x, x)).2.1
    show countOf ((m.accumulateSentence [x]).accumulateSentence [y]).Grams2 (x, y) = _
    rw [h2, h1]
    simp [adjacentPairs, occurrences]

end NOpenSpell
